import Mathlib

/-!
Verification of the proxy-pool core of the Clutch-Scraper repository
(`src/proxy/manager.rs`, `src/proxy/stats.rs`), via a shallow embedding:

* `HashMap<String, V>` is modelled as an association list with distinct
  keys (the hash-map invariant); lookup/insert/remove act on the first
  matching key.
* `Instant` is modelled as a `Nat` timestamp; `Instant::now()` becomes an
  explicit `now : Nat` argument.
* `u32`/`u16`/`usize` counters are modelled as `Nat` (the counters only
  ever grow by small increments, overflow is immaterial to the claims).
* Mutex-guarded mutation of `&self` becomes explicit state passing on
  `ManagerState`; each public operation is one critical section, matching
  the lock-per-call structure of the source.
* Network probes are external: a probe's outcome is a parameter
  (`ProbeOutcome`), as in the source where `validate_single_proxy`'s
  result depends only on the external HTTP client.
-/

/-- `ProxyStats` from `src/proxy/stats.rs`.  `status_codes : HashMap<u16, usize>`
is modelled as an association list from code to count. -/
structure ProxyStats where
  validation_status : Option String
  total_requests : Nat
  successful_requests : Nat
  failed_requests : Nat
  status_codes : List (Nat × Nat)
  successful_urls : List String
  failed_urls : List (String × String)
deriving Repr, DecidableEq

/-- `ProxyStats::new` (= `Default::default()`). -/
def ProxyStats.new : ProxyStats :=
  { validation_status := none
    total_requests := 0
    successful_requests := 0
    failed_requests := 0
    status_codes := []
    successful_urls := []
    failed_urls := [] }

/-- `ProxyStats::set_validation_status`. -/
def ProxyStats.set_validation_status (s : ProxyStats) (status : String) : ProxyStats :=
  { s with validation_status := some status }

/-- `*self.status_codes.entry(code).or_default() += 1`. -/
def bumpCode : List (Nat × Nat) → Nat → List (Nat × Nat)
  | [], code => [(code, 1)]
  | (c, n) :: rest, code =>
    if c = code then (c, n + 1) :: rest else (c, n) :: bumpCode rest code

/-- Histogram lookup (`status_codes[code]`, 0 when absent). -/
def lookupCode : List (Nat × Nat) → Nat → Nat
  | [], _ => 0
  | (c, n) :: rest, code => if c = code then n else lookupCode rest code

/-- `ProxyStats::record_success`. -/
def ProxyStats.record_success (s : ProxyStats) (url : String) (status_code : Nat) :
    ProxyStats :=
  { s with
    total_requests := s.total_requests + 1
    successful_requests := s.successful_requests + 1
    status_codes := bumpCode s.status_codes status_code
    successful_urls := s.successful_urls ++ [url] }

/-- `ProxyStats::record_failure`. -/
def ProxyStats.record_failure (s : ProxyStats) (url : String) (reason : String)
    (status_code : Option Nat) : ProxyStats :=
  { s with
    total_requests := s.total_requests + 1
    failed_requests := s.failed_requests + 1
    status_codes :=
      match status_code with
      | some code => bumpCode s.status_codes code
      | none => s.status_codes
    failed_urls := s.failed_urls ++ [(url, reason)] }

/-- `ProxyState` from `src/proxy/manager.rs`.  The `Arc<Mutex<ProxyStats>>` is
flattened to the stats value itself: the only aliasing in the source is the
move of the same `Arc` into `all_stats` on eviction, which the embedding
renders as copying the current stats value at that moment. -/
structure ProxyState where
  url : String
  failures : Nat
  last_used : Nat
  stats : ProxyStats
deriving Repr, DecidableEq

/-- The mutable state owned by `ProxyManager`: `working_proxies`,
`dead_proxies`, `all_stats`. -/
structure ManagerState where
  working : List (String × ProxyState)
  dead : List String
  all_stats : List (String × ProxyStats)
deriving Repr, DecidableEq

/-- `ProxyError` variants from `src/error.rs` that the pool operations use. -/
inductive ProxyError where
  | NoWorkingProxies : ProxyError
  | AllProxiesExhausted : List (String × String) → ProxyError
  | ValidationFailed : String → ProxyError
  | TimeoutError : String → ProxyError
deriving Repr, DecidableEq

/-- `HashMap::get` / `get_mut`: value at the (first, hence unique) matching key. -/
def alookup {α : Type} : List (String × α) → String → Option α
  | [], _ => none
  | (k, v) :: rest, key => if k = key then some v else alookup rest key

/-- In-place update through `get_mut`: replace the value at the key. -/
def aupdate {α : Type} : List (String × α) → String → α → List (String × α)
  | [], _, _ => []
  | (k, v) :: rest, key, v' =>
    if k = key then (key, v') :: rest else (k, v) :: aupdate rest key v'

/-- `HashMap::remove`. -/
def aremove {α : Type} : List (String × α) → String → List (String × α)
  | [], _ => []
  | (k, v) :: rest, key => if k = key then rest else (k, v) :: aremove rest key

/-- `HashMap::insert`: replace if the key is present, else add. -/
def ainsert {α : Type} (l : List (String × α)) (key : String) (v : α) :
    List (String × α) :=
  match alookup l key with
  | some _ => aupdate l key v
  | none => l ++ [(key, v)]

/-- `ProxyManager::mark_proxy_success` (state transition).  `now` stands for
`Instant::now()`. -/
def mark_proxy_success_state (s : ManagerState) (proxy_url url : String)
    (status_code : Nat) (now : Nat) : ManagerState :=
  match alookup s.working proxy_url with
  | none => s
  | some st =>
    { s with
      working := aupdate s.working proxy_url
        { st with
          failures := 0
          last_used := now
          stats := st.stats.record_success url status_code } }

/-- `ProxyManager::mark_proxy_success` returns `Result<()>`; the source body
has no error path, so the embedding always returns `Except.ok`. -/
def mark_proxy_success (s : ManagerState) (proxy_url url : String)
    (status_code : Nat) (now : Nat) : Except ProxyError ManagerState :=
  Except.ok (mark_proxy_success_state s proxy_url url status_code now)

/-- `ProxyManager::mark_proxy_failure` (state transition).  `max_retries` is
`self.config.proxy.max_retries`. -/
def mark_proxy_failure_state (s : ManagerState) (max_retries : Nat)
    (proxy_url error : String) (status_code : Option Nat) (request_url : String) :
    ManagerState :=
  match alookup s.working proxy_url with
  | none => s
  | some st =>
    let st' : ProxyState :=
      { st with
        failures := st.failures + 1
        stats := st.stats.record_failure request_url error status_code }
    if max_retries ≤ st'.failures then
      { working := aremove s.working proxy_url
        dead := s.dead ++ [proxy_url]
        all_stats := ainsert s.all_stats proxy_url st'.stats }
    else
      { s with working := aupdate s.working proxy_url st' }

/-- `ProxyManager::mark_proxy_failure` returns `Result<()>`; the source body
has no error path, so the embedding always returns `Except.ok`. -/
def mark_proxy_failure (s : ManagerState) (max_retries : Nat)
    (proxy_url error : String) (status_code : Option Nat) (request_url : String) :
    Except ProxyError ManagerState :=
  Except.ok (mark_proxy_failure_state s max_retries proxy_url error status_code request_url)

/-- The `a.1.failures.cmp(&b.1.failures)` / `a.1.last_used.cmp(&b.1.last_used)`
comparator passed to `min_by` in `ProxyManager::get_proxy`. -/
def cmpState (a b : ProxyState) : Ordering :=
  let failure_cmp := compare a.failures b.failures
  if failure_cmp = Ordering.eq then compare a.last_used b.last_used else failure_cmp

/-- Rust `Iterator::min_by`: the first element that is minimal under the
comparator (a later element replaces the current minimum only when strictly
smaller). -/
def min_by (l : List (String × ProxyState)) : Option (String × ProxyState) :=
  l.foldl
    (fun acc p =>
      match acc with
      | none => some p
      | some q => if cmpState p.2 q.2 = Ordering.lt then some p else some q)
    none

/-- The lazy eviction sweep at the top of `ProxyManager::get_proxy`
(lines 197-213): collect every working entry with
`failures >= max_retries` into `to_remove`, then remove each from
`working_proxies` and push its URL onto `dead_proxies`. -/
def sweep (s : ManagerState) (max_retries : Nat) : ManagerState :=
  let to_remove :=
    (s.working.filter (fun p => decide (max_retries ≤ p.2.failures))).map Prod.fst
  { s with
    working := to_remove.foldl (fun w url => aremove w url) s.working
    dead := s.dead ++ to_remove }

/-- `ProxyManager::get_proxy`.  Rust mutates `&self` through the mutexes and
returns `Result<String>`; the embedding returns the result together with the
post-call state (the sweep's mutation persists on the error path too). -/
def get_proxy (s : ManagerState) (max_retries : Nat) (now : Nat) :
    Except ProxyError String × ManagerState :=
  let s1 := sweep s max_retries
  if s1.working.isEmpty then
    let failed_proxies := s1.dead.map (fun url => (url, "Max retries exceeded"))
    if ¬ failed_proxies.isEmpty then
      (Except.error (ProxyError.AllProxiesExhausted failed_proxies), s1)
    else
      (Except.error ProxyError.NoWorkingProxies, s1)
  else
    match min_by s1.working with
    | some (key, st) =>
      (Except.ok st.url,
        { s1 with working := aupdate s1.working key { st with last_used := now } })
    | none => (Except.error ProxyError.NoWorkingProxies, s1)

/-- Outcome of one validation probe, abstracting the external HTTP client:
`success` is a 200 response before the timeout; `failure` is any completed
probe that never saw a 200 (`ValidationFailed`); `timedOut` is the outer
`tokio::time::timeout` firing (`TimeoutError`). -/
inductive ProbeOutcome where
  | success : ProbeOutcome
  | failure : ProbeOutcome
  | timedOut : ProbeOutcome
deriving Repr, DecidableEq

/-- The `ProxyStats` installed for a freshly validated proxy:
`ProxyStats::new()` then `set_validation_status("success")`. -/
def validatedStats : ProxyStats :=
  ProxyStats.new.set_validation_status "success"

/-- The `ProxyState` inserted into `working_proxies` on probe success
(`failures: 0`, `last_used: Instant::now()`). -/
def validatedState (proxy : String) (now : Nat) : ProxyState :=
  { url := proxy, failures := 0, last_used := now, stats := validatedStats }

/-- The empty pool a `ProxyManager` starts from in `ProxyManager::new`. -/
def emptyPool : ManagerState :=
  { working := [], dead := [], all_stats := [] }

/-- Effect of one probe task body on the shared pool
(`ProxyManager::validate_proxies`, lines 71-113): success inserts into
`working_proxies`, failure or timeout pushes onto `dead_proxies`. -/
def probeStep (outcome : String → ProbeOutcome) (now : Nat) (s : ManagerState)
    (proxy : String) : ManagerState :=
  match outcome proxy with
  | ProbeOutcome.success =>
    { s with working := ainsert s.working proxy (validatedState proxy now) }
  | ProbeOutcome.failure => { s with dead := s.dead ++ [proxy] }
  | ProbeOutcome.timedOut => { s with dead := s.dead ++ [proxy] }

/-- `ProxyManager::validate_proxies` run from the empty pool of
`ProxyManager::new`: every candidate is probed exactly once (modelled in
list order; completions are unordered in the source but every probe's
critical section is a single insert/append, so the claims proved below are
order-independent), then the zero-survivors check (lines 130-133). -/
def validate_proxies (candidates : List String) (outcome : String → ProbeOutcome)
    (now : Nat) : Except ProxyError ManagerState :=
  let st := candidates.foldl (probeStep outcome now) emptyPool
  if st.working.length = 0 then Except.error ProxyError.NoWorkingProxies
  else Except.ok st

/-- Model of Rust `str::trim`: strip leading and trailing whitespace. -/
def trimStr (s : String) : String :=
  String.mk (((s.data.dropWhile Char.isWhitespace).reverse.dropWhile
    Char.isWhitespace).reverse)

/-- The candidate-list construction in `ProxyManager::new` (lines 32-36):
map each line to the socks5 scheme followed by the trimmed line, then
filter out empty strings — note the emptiness filter runs on the
already-prefixed strings.  The input is the list of lines of the proxy
file as produced by Rust `str::lines`. -/
def parse_proxies (lines : List String) : List String :=
  (lines.map (fun s => "socks5://" ++ trimStr s)).filter (fun s => ¬ s.isEmpty)

/-! ### Association-list lemmas (hash-map reasoning layer) -/

lemma alookup_eq_none_iff {α : Type} (l : List (String × α)) (k : String) :
    alookup l k = none ↔ k ∉ l.map Prod.fst := by
  induction l with
  | nil => simp [alookup]
  | cons h t ih =>
    obtain ⟨k0, v0⟩ := h
    by_cases hk : k0 = k
    · subst hk; simp [alookup]
    · simp [alookup, hk, ih, Ne.symm hk]

lemma alookup_isSome_of_mem {α : Type} {l : List (String × α)} {k : String} {v : α}
    (h : (k, v) ∈ l) : (alookup l k).isSome := by
  induction l with
  | nil => simp at h
  | cons hd t ih =>
    obtain ⟨k0, v0⟩ := hd
    rcases List.mem_cons.mp h with h1 | h2
    · obtain ⟨hk, hv⟩ := Prod.mk.injEq .. ▸ h1
      simp [alookup, hk.symm]
    · by_cases hk : k0 = k
      · simp [alookup, hk]
      · simpa [alookup, hk] using ih h2

lemma alookup_aupdate_self {α : Type} (l : List (String × α)) (k : String) (v : α)
    (h : (alookup l k).isSome) : alookup (aupdate l k v) k = some v := by
  induction l with
  | nil => simp [alookup] at h
  | cons hd t ih =>
    obtain ⟨k0, v0⟩ := hd
    by_cases hk : k0 = k
    · simp [aupdate, hk, alookup]
    · simpa [aupdate, hk, alookup] using ih (by simpa [alookup, hk] using h)

lemma alookup_aupdate_ne {α : Type} (l : List (String × α)) (k : String) (v : α)
    (k' : String) (h : k' ≠ k) : alookup (aupdate l k v) k' = alookup l k' := by
  induction l with
  | nil => simp [aupdate]
  | cons hd t ih =>
    obtain ⟨k0, v0⟩ := hd
    by_cases hk : k0 = k
    · subst hk; simp [aupdate, alookup, Ne.symm h]
    · simp [aupdate, hk, alookup, ih]

lemma aremove_keys_sublist {α : Type} (l : List (String × α)) (k : String) :
    ((aremove l k).map Prod.fst).Sublist (l.map Prod.fst) := by
  induction l with
  | nil => simp [aremove]
  | cons hd t ih =>
    obtain ⟨k0, v0⟩ := hd
    by_cases hk : k0 = k
    · subst hk
      have h : aremove ((k0, v0) :: t) k0 = t := by
        simp [aremove]
      rw [h, List.map_cons]
      exact List.sublist_cons_self k0 (t.map Prod.fst)
    · simpa [aremove, hk] using ih.cons₂ k0

lemma alookup_aremove_self {α : Type} (l : List (String × α)) (k : String)
    (hnd : (l.map Prod.fst).Nodup) : alookup (aremove l k) k = none := by
  induction l with
  | nil => simp [aremove, alookup]
  | cons hd t ih =>
    obtain ⟨k0, v0⟩ := hd
    simp only [List.map_cons, List.nodup_cons] at hnd
    by_cases hk : k0 = k
    · subst hk
      simpa [aremove, alookup_eq_none_iff] using hnd.1
    · simpa [aremove, hk, alookup, hk] using ih hnd.2

lemma alookup_aremove_none {α : Type} (l : List (String × α)) (k q : String)
    (h : alookup l k = none) : alookup (aremove l q) k = none := by
  rw [alookup_eq_none_iff] at h ⊢
  exact fun hc => h ((aremove_keys_sublist l q).mem hc)

lemma aremove_keys_nodup {α : Type} (l : List (String × α)) (k : String)
    (hnd : (l.map Prod.fst).Nodup) : ((aremove l k).map Prod.fst).Nodup :=
  hnd.sublist (aremove_keys_sublist l k)

lemma alookup_append {α : Type} (l1 l2 : List (String × α)) (k : String) :
    alookup (l1 ++ l2) k = ((alookup l1 k).rec (alookup l2 k) fun v => some v) := by
  induction l1 with
  | nil => simp [alookup]
  | cons hd t ih =>
    obtain ⟨k0, v0⟩ := hd
    by_cases hk : k0 = k
    · simp [alookup, hk]
    · simp [alookup, hk, ih]

lemma alookup_ainsert_self {α : Type} (l : List (String × α)) (k : String) (v : α) :
    alookup (ainsert l k v) k = some v := by
  unfold ainsert
  cases h : alookup l k with
  | some w => exact alookup_aupdate_self l k v (by simp [h])
  | none => simp [alookup_append, h, alookup]

lemma alookup_ainsert_ne {α : Type} (l : List (String × α)) (k : String) (v : α)
    (k' : String) (h : k' ≠ k) : alookup (ainsert l k v) k' = alookup l k' := by
  unfold ainsert
  cases hl : alookup l k with
  | some w => exact alookup_aupdate_ne l k v k' h
  | none => cases h2 : alookup l k' <;> simp [alookup_append, h2, alookup, Ne.symm h]

/-! ### Comparator and `min_by` lemmas -/

lemma cmpState_lt_iff (a b : ProxyState) :
    cmpState a b = Ordering.lt ↔
      (a.failures < b.failures ∨
        (a.failures = b.failures ∧ a.last_used < b.last_used)) := by
  rcases Nat.lt_trichotomy a.failures b.failures with hf | hf | hf
  · have h1 : compare a.failures b.failures = Ordering.lt := Nat.compare_eq_lt.mpr hf
    simp only [cmpState, h1]
    simp
    omega
  · have h1 : compare a.failures b.failures = Ordering.eq := Nat.compare_eq_eq.mpr hf
    simp only [cmpState, h1]
    simp [Nat.compare_eq_lt]
    omega
  · have h1 : compare a.failures b.failures = Ordering.gt := Nat.compare_eq_gt.mpr hf
    simp only [cmpState, h1]
    simp
    omega

lemma cmpState_irrefl (a : ProxyState) : cmpState a a ≠ Ordering.lt := by
  intro h
  rw [cmpState_lt_iff] at h
  omega

lemma cmpState_lt_trans (x a p : ProxyState) (h1 : cmpState x a = Ordering.lt)
    (h2 : cmpState a p = Ordering.lt) : cmpState x p = Ordering.lt := by
  rw [cmpState_lt_iff] at h1 h2 ⊢
  omega

lemma cmpState_lt_of_lt_of_not_lt (x p a : ProxyState)
    (h1 : cmpState x p = Ordering.lt) (h2 : cmpState a p ≠ Ordering.lt) :
    cmpState x a = Ordering.lt := by
  rw [cmpState_lt_iff] at h1 ⊢
  rw [Ne, cmpState_lt_iff] at h2
  omega

/-- The step function of the `min_by` fold. -/
def minStep (acc : Option (String × ProxyState)) (p : String × ProxyState) :
    Option (String × ProxyState) :=
  match acc with
  | none => some p
  | some q => if cmpState p.2 q.2 = Ordering.lt then some p else some q

lemma min_by_eq_foldl_minStep (l : List (String × ProxyState)) :
    min_by l = l.foldl minStep none := by
  unfold min_by minStep
  rfl

lemma foldl_minStep_some (l : List (String × ProxyState)) :
    ∀ a : String × ProxyState,
      ∃ p, l.foldl minStep (some a) = some p ∧ (p = a ∨ p ∈ l) ∧
        cmpState a.2 p.2 ≠ Ordering.lt ∧
        ∀ q ∈ l, cmpState q.2 p.2 ≠ Ordering.lt := by
  induction l with
  | nil =>
    intro a
    exact ⟨a, rfl, Or.inl rfl, cmpState_irrefl a.2, by simp⟩
  | cons x xs ih =>
    intro a
    by_cases hx : cmpState x.2 a.2 = Ordering.lt
    · obtain ⟨p, hfold, hmem, hxp, hall⟩ := ih x
      refine ⟨p, ?_, ?_, ?_, ?_⟩
      · simpa [List.foldl_cons, minStep, hx] using hfold
      · rcases hmem with h | h
        · exact Or.inr (by rw [h]; exact List.mem_cons_self x xs)
        · exact Or.inr (List.mem_cons.mpr (Or.inr h))
      · intro hap
        exact hxp (cmpState_lt_trans x.2 a.2 p.2 hx hap)
      · intro q hq
        rcases List.mem_cons.mp hq with h | h
        · rw [h]; exact hxp
        · exact hall q h
    · obtain ⟨p, hfold, hmem, hap, hall⟩ := ih a
      refine ⟨p, ?_, ?_, hap, ?_⟩
      · simpa [List.foldl_cons, minStep, hx] using hfold
      · rcases hmem with h | h
        · exact Or.inl h
        · exact Or.inr (List.mem_cons.mpr (Or.inr h))
      · intro q hq
        rcases List.mem_cons.mp hq with h | h
        · intro hqp
          rw [h] at hqp
          exact hx (cmpState_lt_of_lt_of_not_lt x.2 p.2 a.2 hqp hap)
        · exact hall q h

lemma min_by_spec (l : List (String × ProxyState)) (hne : l ≠ []) :
    ∃ p, min_by l = some p ∧ p ∈ l ∧
      ∀ q ∈ l, cmpState q.2 p.2 ≠ Ordering.lt := by
  cases l with
  | nil => exact absurd rfl hne
  | cons a xs =>
    obtain ⟨p, hfold, hmem, hap, hall⟩ := foldl_minStep_some xs a
    refine ⟨p, ?_, ?_, ?_⟩
    · rw [min_by_eq_foldl_minStep]
      simpa [List.foldl_cons, minStep] using hfold
    · rcases hmem with h | h
      · rw [h]; exact List.mem_cons_self a xs
      · exact List.mem_cons.mpr (Or.inr h)
    · intro q hq
      rcases List.mem_cons.mp hq with h | h
      · rw [h]; exact hap
      · exact hall q h

lemma bumpCode_lookup_self (m : List (Nat × Nat)) (code : Nat) :
    lookupCode (bumpCode m code) code = lookupCode m code + 1 := by
  induction m with
  | nil => simp [bumpCode, lookupCode]
  | cons hd t ih =>
    obtain ⟨c, n⟩ := hd
    by_cases hc : c = code
    · simp [bumpCode, lookupCode, hc]
    · simp [bumpCode, lookupCode, hc, ih]

/-! ### Claim theorems -/

/-- The invariant of claim C10 on a `ProxyStats` record. -/
def statsInvariant (st : ProxyStats) : Prop :=
  st.total_requests = st.successful_requests + st.failed_requests ∧
  st.successful_urls.length = st.successful_requests ∧
  st.failed_urls.length = st.failed_requests

/-- C10: `totalRequests = successfulRequests + failedRequests`,
`length successfulUrls = successfulRequests` and
`length failedUrls = failedRequests` hold for `ProxyStats::new` and are
preserved by `record_success` and `record_failure`. -/
theorem stats_counter_invariant :
    statsInvariant ProxyStats.new ∧
    (∀ st url code, statsInvariant st → statsInvariant (st.record_success url code)) ∧
    (∀ st url reason code, statsInvariant st →
      statsInvariant (st.record_failure url reason code)) := by
  refine ⟨?_, ?_, ?_⟩
  · simp [statsInvariant, ProxyStats.new]
  · intro st url code h
    obtain ⟨h1, h2, h3⟩ := h
    refine ⟨?_, ?_, ?_⟩
    · simp [ProxyStats.record_success, h1]
      omega
    · simp [ProxyStats.record_success, h2]
    · simp [ProxyStats.record_success, h3]
  · intro st url reason code h
    obtain ⟨h1, h2, h3⟩ := h
    refine ⟨?_, ?_, ?_⟩
    · simp [ProxyStats.record_failure, h1]
      omega
    · simp [ProxyStats.record_failure, h2]
    · simp [ProxyStats.record_failure, h3]

/-- Witness for C10: the invariant holds concretely after one recorded
success on a fresh record. -/
theorem stats_counter_invariant_witness :
    statsInvariant (ProxyStats.new.record_success "https://clutch.co" 200) :=
  stats_counter_invariant.2.1 ProxyStats.new "https://clutch.co" 200
    stats_counter_invariant.1

/-- Shared helper: `mark_proxy_failure` on an id absent from the working set
leaves the state unchanged. -/
lemma mark_proxy_failure_state_absent (s : ManagerState) (max_retries : Nat)
    (p e ru : String) (sc : Option Nat) (h : alookup s.working p = none) :
    mark_proxy_failure_state s max_retries p e sc ru = s := by
  simp [mark_proxy_failure_state, h]

/-- C9: `mark_proxy_failure` called with a proxy URL absent from
`working_proxies` is a silent no-op: the state is unchanged and the call
returns `Ok(())` (here: `Except.ok` of the unchanged state), never an
error. -/
theorem mark_failure_absent_noop (s : ManagerState) (max_retries : Nat)
    (p e ru : String) (sc : Option Nat) (h : alookup s.working p = none) :
    mark_proxy_failure s max_retries p e sc ru = Except.ok s := by
  simp [mark_proxy_failure, mark_proxy_failure_state_absent s max_retries p e ru sc h]

/-- A healthy one-entry pool used by concrete witnesses. -/
def healthyA : ProxyState :=
  { url := "socks5://a", failures := 0, last_used := 0, stats := ProxyStats.new }

/-- A one-entry pool holding `healthyA`. -/
def poolA : ManagerState :=
  { working := [("socks5://a", healthyA)], dead := [], all_stats := [] }

/-- Witness for C9 at a concrete one-entry pool and an id not in it. -/
theorem mark_failure_absent_noop_witness :
    mark_proxy_failure poolA 3 "socks5://b" "connection reset" none
        "https://clutch.co" =
      Except.ok poolA :=
  mark_failure_absent_noop poolA 3 "socks5://b" "connection reset"
    "https://clutch.co" none (by simp [poolA, alookup])

/-- C5: `mark_proxy_success` on a present id resets `failures` to 0,
refreshes `last_used`, increments `total_requests`, `successful_requests`
and the status-code histogram entry, appends the request URL to
`successful_urls`, and touches nothing else; on an absent id it is a
silent no-op returning `Ok`. -/
theorem mark_success_semantics (s : ManagerState) (p url : String)
    (code now : Nat) :
    (∀ st, alookup s.working p = some st →
      mark_proxy_success s p url code now =
        Except.ok (mark_proxy_success_state s p url code now) ∧
      alookup (mark_proxy_success_state s p url code now).working p =
        some { st with
          failures := 0
          last_used := now
          stats := st.stats.record_success url code } ∧
      (st.stats.record_success url code).total_requests =
        st.stats.total_requests + 1 ∧
      (st.stats.record_success url code).successful_requests =
        st.stats.successful_requests + 1 ∧
      lookupCode (st.stats.record_success url code).status_codes code =
        lookupCode st.stats.status_codes code + 1 ∧
      (st.stats.record_success url code).successful_urls =
        st.stats.successful_urls ++ [url] ∧
      (∀ q, q ≠ p →
        alookup (mark_proxy_success_state s p url code now).working q =
          alookup s.working q) ∧
      (mark_proxy_success_state s p url code now).dead = s.dead ∧
      (mark_proxy_success_state s p url code now).all_stats = s.all_stats) ∧
    (alookup s.working p = none →
      mark_proxy_success s p url code now = Except.ok s) := by
  constructor
  · intro st hst
    refine ⟨rfl, ?_, ?_, ?_, ?_, ?_, ?_, ?_, ?_⟩
    · simp only [mark_proxy_success_state, hst]
      exact alookup_aupdate_self s.working p _ (by simp [hst])
    · simp [ProxyStats.record_success]
    · simp [ProxyStats.record_success]
    · simp [ProxyStats.record_success, bumpCode_lookup_self]
    · simp [ProxyStats.record_success]
    · intro q hq
      simp only [mark_proxy_success_state, hst]
      exact alookup_aupdate_ne s.working p _ q hq
    · simp [mark_proxy_success_state, hst]
    · simp [mark_proxy_success_state, hst]
  · intro h
    simp [mark_proxy_success, mark_proxy_success_state, h]

/-- Witness for C5: the present-id branch evaluated on the one-entry pool. -/
theorem mark_success_semantics_witness :
    alookup (mark_proxy_success_state poolA "socks5://a" "https://clutch.co"
        200 7).working "socks5://a" =
      some { healthyA with
        failures := 0
        last_used := 7
        stats := healthyA.stats.record_success "https://clutch.co" 200 } :=
  ((mark_success_semantics poolA "socks5://a" "https://clutch.co" 200 7).1
    healthyA (by simp [poolA, alookup])).2.1

/-- C1: with threshold `T`, a proxy present in the working set with
`failures < T` is evicted by `mark_proxy_failure` exactly on the call that
makes its failure count equal `T`: on that call the entry leaves
`working_proxies`, its URL is appended to `dead_proxies` and its stats are
archived into `all_stats`; on a call that leaves the count below `T`
nothing is evicted or archived; and after eviction every further
`mark_proxy_failure` for that id is a no-op (the transition cannot fire a
second time). -/
theorem mark_failure_eviction_exact (s : ManagerState) (T : Nat)
    (p e ru : String) (sc : Option Nat) (st : ProxyState)
    (hnd : (s.working.map Prod.fst).Nodup)
    (hst : alookup s.working p = some st) (hlt : st.failures < T) :
    (st.failures + 1 = T →
      alookup (mark_proxy_failure_state s T p e sc ru).working p = none ∧
      (mark_proxy_failure_state s T p e sc ru).dead = s.dead ++ [p] ∧
      alookup (mark_proxy_failure_state s T p e sc ru).all_stats p =
        some (st.stats.record_failure ru e sc) ∧
      (∀ e2 ru2 sc2,
        mark_proxy_failure_state (mark_proxy_failure_state s T p e sc ru)
            T p e2 sc2 ru2 =
          mark_proxy_failure_state s T p e sc ru)) ∧
    (st.failures + 1 < T →
      alookup (mark_proxy_failure_state s T p e sc ru).working p =
        some { st with
          failures := st.failures + 1
          stats := st.stats.record_failure ru e sc } ∧
      (mark_proxy_failure_state s T p e sc ru).dead = s.dead ∧
      (mark_proxy_failure_state s T p e sc ru).all_stats = s.all_stats) ∧
    (st.failures + 1 = T ∨ st.failures + 1 < T) := by
  refine ⟨?_, ?_, by omega⟩
  · intro heq
    have hcond : T ≤ st.failures + 1 := by omega
    have hred :
        mark_proxy_failure_state s T p e sc ru =
          { working := aremove s.working p
            dead := s.dead ++ [p]
            all_stats := ainsert s.all_stats p (st.stats.record_failure ru e sc) } := by
      simp [mark_proxy_failure_state, hst, hcond]
    have habs : alookup (mark_proxy_failure_state s T p e sc ru).working p = none := by
      rw [hred]
      exact alookup_aremove_self s.working p hnd
    refine ⟨habs, by rw [hred], ?_, ?_⟩
    · rw [hred]
      exact alookup_ainsert_self s.all_stats p _
    · intro e2 ru2 sc2
      exact mark_proxy_failure_state_absent _ T p e2 ru2 sc2 habs
  · intro hlt2
    have hcond : ¬ T ≤ st.failures + 1 := by omega
    have hred :
        mark_proxy_failure_state s T p e sc ru =
          { s with
            working :=
              aupdate s.working p
                { st with
                  failures := st.failures + 1
                  stats := st.stats.record_failure ru e sc } } := by
      simp [mark_proxy_failure_state, hst, hcond]
    refine ⟨?_, by rw [hred], by rw [hred]⟩
    rw [hred]
    exact alookup_aupdate_self s.working p _ (by simp [hst])

/-- A working proxy that has already failed once, one failure short of the
threshold `T = 2`. -/
def flakyB : ProxyState :=
  { url := "socks5://b", failures := 1, last_used := 0, stats := ProxyStats.new }

/-- A one-entry pool holding `flakyB`. -/
def poolB : ManagerState :=
  { working := [("socks5://b", flakyB)], dead := [], all_stats := [] }

/-- Witness for C1: with `T = 2`, the second consecutive failure of
`flakyB` evicts it, appends its URL to the dead list and archives its
stats. -/
theorem mark_failure_eviction_exact_witness :
    alookup (mark_proxy_failure_state poolB 2 "socks5://b" "timeout" none
        "https://clutch.co").working "socks5://b" = none ∧
    (mark_proxy_failure_state poolB 2 "socks5://b" "timeout" none
        "https://clutch.co").dead = ["socks5://b"] ∧
    alookup (mark_proxy_failure_state poolB 2 "socks5://b" "timeout" none
        "https://clutch.co").all_stats "socks5://b" =
      some (flakyB.stats.record_failure "https://clutch.co" "timeout" none) := by
  have h := (mark_failure_eviction_exact poolB 2 "socks5://b" "timeout"
    "https://clutch.co" none flakyB (by simp [poolB])
    (by simp [poolB, alookup]) (by simp [flakyB])).1 (by simp [flakyB])
  exact ⟨h.1, h.2.1, h.2.2.1⟩

/-! ### `get_proxy`: error cases, selection, and the lazy sweep -/

lemma alookup_foldl_aremove_none {α : Type} (tr : List String)
    (l : List (String × α)) (p : String) (h : alookup l p = none) :
    alookup (tr.foldl aremove l) p = none := by
  induction tr generalizing l with
  | nil => exact h
  | cons u tr ih => exact ih (aremove l u) (alookup_aremove_none l p u h)

lemma alookup_foldl_aremove_mem {α : Type} (tr : List String)
    (l : List (String × α)) (p : String) (hp : p ∈ tr)
    (hnd : (l.map Prod.fst).Nodup) : alookup (tr.foldl aremove l) p = none := by
  induction tr generalizing l with
  | nil => simp at hp
  | cons u tr ih =>
    by_cases hu : p = u
    · subst hu
      exact alookup_foldl_aremove_none tr (aremove l p) p
        (alookup_aremove_self l p hnd)
    · rcases List.mem_cons.mp hp with h | h
      · exact absurd h hu
      · exact ih (aremove l u) h (aremove_keys_nodup l u hnd)

lemma sweep_all_stats (s : ManagerState) (T : Nat) :
    (sweep s T).all_stats = s.all_stats := rfl

lemma get_proxy_preserves_all_stats (s : ManagerState) (T now : Nat) :
    (get_proxy s T now).2.all_stats = s.all_stats := by
  have hs : (sweep s T).all_stats = s.all_stats := rfl
  by_cases h1 : (sweep s T).working.isEmpty = true
  · by_cases h2 : ((sweep s T).dead.map
        (fun url => (url, "Max retries exceeded"))).isEmpty = true
    · simp [get_proxy, h1, h2, hs]
    · simp [get_proxy, h1, h2, hs]
  · cases hmin : min_by (sweep s T).working with
    | some p =>
      obtain ⟨key, st⟩ := p
      simp [get_proxy, h1, hmin, hs]
    | none => simp [get_proxy, h1, hmin, hs]

/-- C4: whenever the working set is empty after the lazy sweep, `get_proxy`
returns `AllProxiesExhausted` with the dead list (each URL paired with
"Max retries exceeded") when the dead list is non-empty, and
`NoWorkingProxies` when it is empty; when the working set is non-empty
after the sweep, `get_proxy` succeeds. -/
theorem get_proxy_error_cases (s : ManagerState) (T now : Nat) :
    ((sweep s T).working = [] → (sweep s T).dead ≠ [] →
      (get_proxy s T now).1 =
        Except.error (ProxyError.AllProxiesExhausted
          ((sweep s T).dead.map (fun url => (url, "Max retries exceeded"))))) ∧
    ((sweep s T).working = [] → (sweep s T).dead = [] →
      (get_proxy s T now).1 = Except.error ProxyError.NoWorkingProxies) ∧
    ((sweep s T).working ≠ [] → ∃ u, (get_proxy s T now).1 = Except.ok u) := by
  refine ⟨?_, ?_, ?_⟩
  · intro hw hd
    have h1 : (sweep s T).working.isEmpty = true := by simp [hw]
    have h2 : ((sweep s T).dead.map
        (fun url => (url, "Max retries exceeded"))).isEmpty = false := by
      simp [List.isEmpty_iff, hd]
    simp [get_proxy, h1, h2]
  · intro hw hd
    have h1 : (sweep s T).working.isEmpty = true := by simp [hw]
    simp [get_proxy, h1, hd]
  · intro hw
    obtain ⟨⟨key, st⟩, hmin, hmem, hall⟩ := min_by_spec (sweep s T).working hw
    have h1 : (sweep s T).working.isEmpty = false := by
      simp [List.isEmpty_iff, hw]
    exact ⟨st.url, by simp [get_proxy, h1, hmin]⟩

/-- A pool whose dead-worthy entry exercises the error path of `get_proxy`:
one entry already at the threshold failure count. -/
def exhaustedC : ProxyState :=
  { url := "socks5://c", failures := 2, last_used := 0, stats := ProxyStats.new }

/-- A one-entry pool holding `exhaustedC`. -/
def poolC : ManagerState :=
  { working := [("socks5://c", exhaustedC)], dead := [], all_stats := [] }

/-- Witness for C4: sweeping `poolC` at threshold 2 empties the working set
and `get_proxy` reports `AllProxiesExhausted` over the (freshly appended)
dead list. -/
theorem get_proxy_error_cases_witness :
    (get_proxy poolC 2 0).1 =
      Except.error (ProxyError.AllProxiesExhausted
        [("socks5://c", "Max retries exceeded")]) := by
  have h := (get_proxy_error_cases poolC 2 0).1 (by decide) (by decide)
  have h2 : (sweep poolC 2).dead.map (fun url => (url, "Max retries exceeded")) =
      [("socks5://c", "Max retries exceeded")] := by decide
  exact h.trans (congrArg
    (fun l => (Except.error (ProxyError.AllProxiesExhausted l) :
      Except ProxyError String)) h2)

/-- C2: on a working set that is non-empty after the lazy sweep,
`get_proxy` returns the URL of an entry minimizing
(`failures` ascending, `last_used` ascending) — any entry with strictly
fewer failures wins outright, ties are broken least-recently-used — and
rewrites exactly that entry with `last_used := now`. -/
theorem get_proxy_selects_minimum (s : ManagerState) (T now : Nat)
    (hne : (sweep s T).working ≠ []) :
    ∃ key st,
      (key, st) ∈ (sweep s T).working ∧
      (get_proxy s T now).1 = Except.ok st.url ∧
      (∀ q ∈ (sweep s T).working,
        st.failures < q.2.failures ∨
          (st.failures = q.2.failures ∧ st.last_used ≤ q.2.last_used)) ∧
      (get_proxy s T now).2.working =
        aupdate (sweep s T).working key { st with last_used := now } ∧
      alookup (get_proxy s T now).2.working key =
        some { st with last_used := now } := by
  obtain ⟨⟨key, st⟩, hmin, hmem, hall⟩ := min_by_spec (sweep s T).working hne
  have h1 : (sweep s T).working.isEmpty = false := by
    simp [List.isEmpty_iff, hne]
  have hupd : (get_proxy s T now).2.working =
      aupdate (sweep s T).working key { st with last_used := now } := by
    simp [get_proxy, h1, hmin]
  refine ⟨key, st, hmem, ?_, ?_, hupd, ?_⟩
  · simp [get_proxy, h1, hmin]
  · intro q hq
    have h := hall q hq
    rw [Ne, cmpState_lt_iff] at h
    dsimp only at h
    omega
  · rw [hupd]
    exact alookup_aupdate_self (sweep s T).working key _
      (alookup_isSome_of_mem hmem)

/-- A two-entry pool: `"A"` has one failure, `"B"` none but was used more
recently; fewest-failures must win regardless of timestamps. -/
def poolMin : ManagerState :=
  { working :=
      [("A", { url := "A", failures := 1, last_used := 0, stats := ProxyStats.new }),
       ("B", { url := "B", failures := 0, last_used := 9, stats := ProxyStats.new })]
    dead := []
    all_stats := [] }

/-- Witness for C2: selection on `poolMin` below the threshold. -/
theorem get_proxy_selects_minimum_witness :
    ∃ key st,
      (key, st) ∈ (sweep poolMin 3).working ∧
      (get_proxy poolMin 3 7).1 = Except.ok st.url ∧
      (∀ q ∈ (sweep poolMin 3).working,
        st.failures < q.2.failures ∨
          (st.failures = q.2.failures ∧ st.last_used ≤ q.2.last_used)) ∧
      (get_proxy poolMin 3 7).2.working =
        aupdate (sweep poolMin 3).working key { st with last_used := 7 } ∧
      alookup (get_proxy poolMin 3 7).2.working key =
        some { st with last_used := 7 } :=
  get_proxy_selects_minimum poolMin 3 7 (by decide)

/-- C3 counterexample: `poolC`'s only entry has reached the threshold, the
lazy sweep of `get_proxy` removes it from the working set and appends its
URL to the dead list, yet `all_stats` stays empty — its `ProxyStats` is
dropped, not archived, contradicting the claim that the sweep performs the
same full destruction (including stats archiving) as `mark_proxy_failure`
eviction. -/
theorem sweep_does_not_archive_cex :
    2 ≤ exhaustedC.failures ∧
    alookup (get_proxy poolC 2 0).2.working "socks5://c" = none ∧
    "socks5://c" ∈ (get_proxy poolC 2 0).2.dead ∧
    (get_proxy poolC 2 0).2.all_stats = [] ∧
    alookup (get_proxy poolC 2 0).2.all_stats "socks5://c" = none := by
  decide

/-- C3 (amended): during `get_proxy`'s lazy sweep every working entry at or
above the threshold is removed from the working set and its URL appended
to the dead list before selection proceeds, but — unlike eviction in
`mark_proxy_failure` — its `ProxyStats` is discarded: `all_stats` is left
untouched by the whole `get_proxy` call. -/
theorem sweep_evicts_without_archiving (s : ManagerState) (T now : Nat)
    (p : String) (st : ProxyState)
    (hnd : (s.working.map Prod.fst).Nodup)
    (hmem : (p, st) ∈ s.working) (hth : T ≤ st.failures) :
    alookup (sweep s T).working p = none ∧
    p ∈ (sweep s T).dead ∧
    (sweep s T).all_stats = s.all_stats ∧
    (get_proxy s T now).2.all_stats = s.all_stats := by
  have hp : p ∈ (s.working.filter
      (fun q => decide (T ≤ q.2.failures))).map Prod.fst :=
    List.mem_map.mpr ⟨(p, st), List.mem_filter.mpr ⟨hmem, by simp [hth]⟩, rfl⟩
  refine ⟨?_, ?_, rfl, get_proxy_preserves_all_stats s T now⟩
  · exact alookup_foldl_aremove_mem _ s.working p hp hnd
  · exact List.mem_append.mpr (Or.inr hp)

/-- Witness for C3 (amended) on the concrete exhausted pool. -/
theorem sweep_evicts_without_archiving_witness :
    alookup (sweep poolC 2).working "socks5://c" = none ∧
    "socks5://c" ∈ (sweep poolC 2).dead ∧
    (sweep poolC 2).all_stats = poolC.all_stats ∧
    (get_proxy poolC 2 0).2.all_stats = poolC.all_stats :=
  sweep_evicts_without_archiving poolC 2 0 "socks5://c" exhaustedC
    (by decide) (by decide) (by decide)

/-! ### Validation: zero-survivors check and the working/dead partition -/

lemma aupdate_ne_nil {α : Type} (x : String × α) (xs : List (String × α))
    (k : String) (v : α) : aupdate (x :: xs) k v ≠ [] := by
  obtain ⟨k0, v0⟩ := x
  by_cases h : k0 = k <;> simp [aupdate, h]

lemma ainsert_ne_nil {α : Type} (l : List (String × α)) (k : String) (v : α) :
    ainsert l k v ≠ [] := by
  unfold ainsert
  cases h : alookup l k with
  | none => simp
  | some w =>
    cases l with
    | nil => simp [alookup] at h
    | cons x xs => exact aupdate_ne_nil x xs k v

lemma probeStep_working_nonempty (outcome : String → ProbeOutcome) (now : Nat)
    (s : ManagerState) (c : String) (h : s.working ≠ []) :
    (probeStep outcome now s c).working ≠ [] := by
  cases hc : outcome c <;> simp [probeStep, hc, h]
  exact ainsert_ne_nil s.working c (validatedState c now)

lemma foldl_probeStep_nonempty (outcome : String → ProbeOutcome) (now : Nat)
    (cands : List String) (s : ManagerState) (h : s.working ≠ []) :
    (cands.foldl (probeStep outcome now) s).working ≠ [] := by
  induction cands generalizing s with
  | nil => exact h
  | cons c cs ih =>
    exact ih (probeStep outcome now s c)
      (probeStep_working_nonempty outcome now s c h)

lemma foldl_probeStep_success_nonempty (outcome : String → ProbeOutcome)
    (now : Nat) (cands : List String) (s : ManagerState)
    (h : ∃ c ∈ cands, outcome c = ProbeOutcome.success) :
    (cands.foldl (probeStep outcome now) s).working ≠ [] := by
  induction cands generalizing s with
  | nil => simp at h
  | cons c cs ih =>
    by_cases hc : outcome c = ProbeOutcome.success
    · rw [List.foldl_cons]
      apply foldl_probeStep_nonempty
      have hw : (probeStep outcome now s c).working =
          ainsert s.working c (validatedState c now) := by
        simp [probeStep, hc]
      rw [hw]
      exact ainsert_ne_nil s.working c (validatedState c now)
    · obtain ⟨d, hd, hds⟩ := h
      rcases List.mem_cons.mp hd with h1 | h1
      · exact absurd (h1 ▸ hds) hc
      · exact ih (probeStep outcome now s c) ⟨d, h1, hds⟩

/-- C6: construction fails, with exactly `NoWorkingProxies`, if and only if
the working set is empty once every candidate has been probed; when at
least one candidate validates successfully, the pool is returned `Ok`
despite any number of individual probe failures or timeouts. -/
theorem validate_zero_survivors (cands : List String)
    (outcome : String → ProbeOutcome) (now : Nat) :
    (validate_proxies cands outcome now = Except.error ProxyError.NoWorkingProxies ↔
      (cands.foldl (probeStep outcome now) emptyPool).working = []) ∧
    ((cands.foldl (probeStep outcome now) emptyPool).working ≠ [] →
      validate_proxies cands outcome now =
        Except.ok (cands.foldl (probeStep outcome now) emptyPool)) ∧
    ((∃ c ∈ cands, outcome c = ProbeOutcome.success) →
      validate_proxies cands outcome now =
        Except.ok (cands.foldl (probeStep outcome now) emptyPool)) := by
  have hok : ∀ hne : (cands.foldl (probeStep outcome now) emptyPool).working ≠ [],
      validate_proxies cands outcome now =
        Except.ok (cands.foldl (probeStep outcome now) emptyPool) := by
    intro hne
    have h0 : (cands.foldl (probeStep outcome now) emptyPool).working.length ≠ 0 := by
      simpa [List.length_eq_zero] using hne
    simp [validate_proxies, h0]
  refine ⟨?_, hok, ?_⟩
  · constructor
    · intro h
      by_contra hne
      rw [hok hne] at h
      exact Except.noConfusion h
    · intro h
      simp [validate_proxies, List.length_eq_zero, h]
  · intro h
    exact hok (foldl_probeStep_success_nonempty outcome now cands emptyPool h)

/-- Witness for C6: one successful and one timed-out candidate yield an
`Ok` pool despite the probe failure. -/
theorem validate_zero_survivors_witness :
    validate_proxies ["socks5://a", "socks5://b"]
        (fun p => if p = "socks5://a" then ProbeOutcome.success
          else ProbeOutcome.timedOut) 0 =
      Except.ok
        { working := [("socks5://a", validatedState "socks5://a" 0)]
          dead := ["socks5://b"]
          all_stats := [] } := by
  have h := (validate_zero_survivors ["socks5://a", "socks5://b"]
    (fun p => if p = "socks5://a" then ProbeOutcome.success
      else ProbeOutcome.timedOut) 0).2.2
    ⟨"socks5://a", by decide, by decide⟩
  exact h.trans (congrArg Except.ok (by decide))

lemma foldl_probeStep_untouched (outcome : String → ProbeOutcome) (now : Nat)
    (cands : List String) (s : ManagerState) (c : String) (hc : c ∉ cands) :
    alookup (cands.foldl (probeStep outcome now) s).working c =
      alookup s.working c ∧
    (c ∈ (cands.foldl (probeStep outcome now) s).dead ↔ c ∈ s.dead) := by
  induction cands generalizing s with
  | nil => exact ⟨rfl, Iff.rfl⟩
  | cons d ds ih =>
    have hcd : c ≠ d := fun h => hc (by rw [h]; exact List.mem_cons_self d ds)
    have hcds : c ∉ ds := fun h => hc (List.mem_cons.mpr (Or.inr h))
    obtain ⟨h1, h2⟩ := ih (probeStep outcome now s d) hcds
    rw [List.foldl_cons]
    refine ⟨h1.trans ?_, h2.trans ?_⟩
    · cases hd : outcome d <;> simp [probeStep, hd]
      exact alookup_ainsert_ne s.working d (validatedState d now) c hcd
    · cases hd : outcome d <;> simp [probeStep, hd, hcd]

/-- C7: once validation of a duplicate-free candidate list completes, every
candidate sits in exactly one of the working set and the dead list: a
successful probe leaves it in the working set — with `failures = 0` and
`validation_status` set to success — and not in the dead list, while any
other outcome leaves it in the dead list and out of the working set. -/
theorem validation_partitions (cands : List String)
    (outcome : String → ProbeOutcome) (now : Nat) (hnd : cands.Nodup)
    (c : String) (hc : c ∈ cands) :
    (outcome c = ProbeOutcome.success →
      alookup (cands.foldl (probeStep outcome now) emptyPool).working c =
        some (validatedState c now) ∧
      c ∉ (cands.foldl (probeStep outcome now) emptyPool).dead ∧
      (validatedState c now).failures = 0 ∧
      (validatedState c now).stats.validation_status = some "success") ∧
    (outcome c ≠ ProbeOutcome.success →
      alookup (cands.foldl (probeStep outcome now) emptyPool).working c = none ∧
      c ∈ (cands.foldl (probeStep outcome now) emptyPool).dead) := by
  obtain ⟨l1, l2, rfl⟩ := List.append_of_mem hc
  have hnd2 := List.nodup_append.mp hnd
  have hc1 : c ∉ l1 := fun h => hnd2.2.2 h (List.mem_cons_self c l2)
  have hc2 : c ∉ l2 := (List.nodup_cons.mp hnd2.2.1).1
  obtain ⟨hw1, hd1⟩ := foldl_probeStep_untouched outcome now l1 emptyPool c hc1
  have hw0 : alookup (l1.foldl (probeStep outcome now) emptyPool).working c =
      none := by
    rw [hw1]; rfl
  have hd0 : c ∉ (l1.foldl (probeStep outcome now) emptyPool).dead := by
    rw [hd1]; simp [emptyPool]
  rw [List.foldl_append, List.foldl_cons]
  obtain ⟨hw2, hd2⟩ := foldl_probeStep_untouched outcome now l2
    (probeStep outcome now (l1.foldl (probeStep outcome now) emptyPool) c) c hc2
  constructor
  · intro hsucc
    refine ⟨?_, ?_, rfl, rfl⟩
    · rw [hw2]
      simp only [probeStep, hsucc]
      exact alookup_ainsert_self _ c (validatedState c now)
    · rw [hd2]
      simpa [probeStep, hsucc] using hd0
  · intro hfail
    constructor
    · rw [hw2]
      cases hout : outcome c with
      | success => exact absurd hout hfail
      | failure => simpa [probeStep, hout] using hw0
      | timedOut => simpa [probeStep, hout] using hw0
    · rw [hd2]
      cases hout : outcome c with
      | success => exact absurd hout hfail
      | failure => simp [probeStep, hout]
      | timedOut => simp [probeStep, hout]

/-- Witness for C7: two candidates, one validating and one timing out, each
end up on exactly one side of the partition. -/
theorem validation_partitions_witness :
    alookup ((["socks5://a", "socks5://b"].foldl
        (probeStep (fun p => if p = "socks5://a" then ProbeOutcome.success
          else ProbeOutcome.timedOut) 0) emptyPool)).working "socks5://a" =
      some (validatedState "socks5://a" 0) ∧
    "socks5://a" ∉ ((["socks5://a", "socks5://b"].foldl
        (probeStep (fun p => if p = "socks5://a" then ProbeOutcome.success
          else ProbeOutcome.timedOut) 0) emptyPool)).dead := by
  have h := (validation_partitions ["socks5://a", "socks5://b"]
    (fun p => if p = "socks5://a" then ProbeOutcome.success
      else ProbeOutcome.timedOut) 0 (by decide) "socks5://a"
    (by decide)).1 (by decide)
  exact ⟨h.1, h.2.1⟩

/-! ### C8: the blank-line filter in `ProxyManager::new` -/

lemma prefixed_isEmpty_false (t : String) :
    ("socks5://" ++ t).isEmpty = false := by
  rw [Bool.eq_false_iff, Ne, String.isEmpty_iff]
  intro h
  have h2 : ("socks5://" ++ t).data = "".data := congrArg String.data h
  obtain ⟨l⟩ := t
  simp [String.append] at h2

/-- C8: the blank-line filter in `ProxyManager::new` is dead code.  It runs
after the `socks5://` prefix has been applied, so the candidate built from
a line is never the empty string and nothing is ever filtered out: the
blank line in the middle of the file below survives as the bogus candidate
"socks5://", and in general the candidate list is exactly the prefixed
form of every line, blank lines included. -/
theorem parse_proxies_keeps_blank_lines :
    parse_proxies ["1.2.3.4:1080", "", "5.6.7.8:1080"] =
      ["socks5://1.2.3.4:1080", "socks5://", "socks5://5.6.7.8:1080"] ∧
    "socks5://" ∈ parse_proxies ["1.2.3.4:1080", "", "5.6.7.8:1080"] ∧
    ∀ lines : List String,
      parse_proxies lines = lines.map (fun s => "socks5://" ++ trimStr s) := by
  refine ⟨by decide, by decide, ?_⟩
  intro lines
  unfold parse_proxies
  apply List.filter_eq_self.mpr
  intro a ha
  obtain ⟨s, hs, rfl⟩ := List.mem_map.mp ha
  simp only [decide_eq_true_eq]
  rw [prefixed_isEmpty_false (trimStr s)]
  exact Bool.false_ne_true
